import Mathlib

/-!
Verification development for the ISAAC live audio/video session client.

The embedding below translates the audio utility functions of `src/App.tsx`
(`decode`, `decodeAudioData`, `encode`, `createBlob`), the `onmessage`
dispatcher of `startListening` (transcription reconciliation, playback
scheduling, turn completion, interruption), the `stopListening` teardown,
and the service worker function `checkInactivityAndNotify`.

Modelling conventions:
* Audio samples are rationals.  Every numeric operation the source performs
  on samples (multiplication and division by 32768 = 2^15, which only moves
  the binary exponent, truncation, and 16 bit wrapping) is exact in binary
  floating point for the magnitudes involved, so `Rat` is a faithful domain.
* JavaScript exceptions are modelled by `Option`/`Except`: a `none` or
  `.error` result corresponds to a thrown exception.
* Byte buffers are `List Nat` with entries below 256.  The `Uint8Array`
  view of an `Int16Array` buffer is modelled little endian, the byte order
  of every platform this code ships on and the one the wire format names.
* Each `onmessage` callback invocation is modelled as one atomic step, the
  scheduling model of the specification.
-/

namespace Isaac

/-! ## Base64 (the `btoa`/`atob` pair used by `encode` and `decode`) -/

/-- The standard base64 alphabet used by `btoa`. -/
def b64Alphabet : List Char :=
  "ABCDEFGHIJKLMNOPQRSTUVWXYZabcdefghijklmnopqrstuvwxyz0123456789+/".toList

/-- Character for a six bit value. -/
def b64Char (n : Nat) : Char := b64Alphabet.getD n 'A'

/-- Six bit value of a base64 character, `none` for characters outside the
alphabet (such as the padding character). -/
def b64Val (c : Char) : Option Nat :=
  let i := b64Alphabet.findIdx (fun d => d == c)
  if i < 64 then some i else none

/-- Encoding loop of `btoa`: bytes to base64 characters, three bytes per
four characters, padded with the padding character. -/
def btoaChunks : List Nat → List Char
  | [] => []
  | [b1] => [b64Char (b1 / 4), b64Char (b1 % 4 * 16), '=', '=']
  | [b1, b2] =>
    [b64Char (b1 / 4), b64Char (b1 % 4 * 16 + b2 / 16), b64Char (b2 % 16 * 4), '=']
  | b1 :: b2 :: b3 :: rest =>
    b64Char (b1 / 4) :: b64Char (b1 % 4 * 16 + b2 / 16)
      :: b64Char (b2 % 16 * 4 + b3 / 64) :: b64Char (b3 % 64) :: btoaChunks rest

/-- Decoding loop of `atob` on well formed base64 (padding only at the end);
`none` models the `InvalidCharacterError` exception `atob` throws on
malformed input. -/
def atobChunks : List Char → Option (List Nat)
  | [] => some []
  | c1 :: c2 :: c3 :: c4 :: rest =>
    (b64Val c1).bind fun v1 =>
    (b64Val c2).bind fun v2 =>
    if c3 = '=' then
      if c4 = '=' ∧ rest = [] then some [v1 * 4 + v2 / 16] else none
    else
      (b64Val c3).bind fun v3 =>
      if c4 = '=' then
        if rest = [] then some [v1 * 4 + v2 / 16, v2 % 16 * 16 + v3 / 4] else none
      else
        (b64Val c4).bind fun v4 =>
        (atobChunks rest).map
          (fun tl => (v1 * 4 + v2 / 16) :: (v2 % 16 * 16 + v3 / 4) :: (v3 % 4 * 64 + v4) :: tl)
  | _ => none

/-- Source `encode` (App.tsx lines 40 to 47): builds the binary string of the
byte array and applies `btoa`. -/
def encode (bytes : List Nat) : String := String.mk (btoaChunks bytes)

/-- Source `decode` (App.tsx lines 11 to 19): `atob`, then one byte per code
unit of the binary string. -/
def decode (base64 : String) : Option (List Nat) := atobChunks base64.toList

/-! ## 16 bit PCM packing (`createBlob` and `decodeAudioData`) -/

/-- Truncation toward zero, the integer conversion step of ECMAScript
`ToInt16`. -/
def truncRat (q : ℚ) : ℤ := if 0 ≤ q then ⌊q⌋ else ⌈q⌉

/-- ECMAScript `ToInt16`, the conversion applied by the assignment
`int16[i] = data[i] * 32768` in `createBlob`: truncate toward zero, wrap
modulo 2^16 into the signed range. -/
def toInt16JS (q : ℚ) : ℤ :=
  let t := truncRat q
  let m := t % 65536
  if m ≥ 32768 then m - 65536 else m

/-- Little endian bytes of one 16 bit integer, the `Uint8Array` view of one
`Int16Array` element. -/
def int16ToBytes (v : ℤ) : List Nat :=
  let u := (v % 65536).toNat
  [u % 256, u / 256]

/-- Reading one `Int16Array` element out of two little endian bytes. -/
def bytesToInt16 (lo hi : Nat) : ℤ :=
  let u := lo + 256 * hi
  if 32768 ≤ u then (u : ℤ) - 65536 else (u : ℤ)

/-- The whole `Int16Array` view of an even length byte buffer (a trailing
odd byte never occurs: the constructor has already rejected odd lengths). -/
def bytesToInt16List : List Nat → List ℤ
  | [] => []
  | [_] => []
  | lo :: hi :: rest => bytesToInt16 lo hi :: bytesToInt16List rest

/-- Wire blob record produced by `createBlob`. -/
structure GenAIBlobModel where
  data : String
  mimeType : String
deriving DecidableEq, Repr

/-- Source `createBlob` (App.tsx lines 49 to 59): the loop
`int16[i] = data[i] * 32768` stores `ToInt16` of the scaled sample (the
scaling by 2^15 is exact in floating point), the blob data is `btoa` of the
byte view of the `Int16Array` buffer, and the mime tag is fixed. -/
def createBlob (samples : List ℚ) : GenAIBlobModel :=
  { data := encode ((samples.map (fun s => toInt16JS (s * 32768))).flatMap int16ToBytes)
    mimeType := "audio/pcm;rate=16000" }

/-- Source `decodeAudioData` (App.tsx lines 21 to 38).  `none` models the
exceptions of the source: `new Int16Array(data.buffer)` throws a
`RangeError` when the byte length is odd, and `ctx.createBuffer` throws a
`NotSupportedError` when the channel count or the (truncated) frame count
is zero.  For a fractional `frameCount` the JavaScript loop writes one
index past the buffer, a silently dropped out of bounds typed array store,
so the observable result holds `floor(frameCount)` frames per channel. -/
def decodeAudioData (data : List Nat) (numChannels : Nat) :
    Option (List (List ℚ)) :=
  if data.length % 2 ≠ 0 then none
  else
    let dataInt16 := bytesToInt16List data
    let frameCount := dataInt16.length / numChannels
    if numChannels = 0 ∨ frameCount = 0 then none
    else some ((List.range numChannels).map (fun ch =>
      (List.range frameCount).map (fun i =>
        ((dataInt16.getD (i * numChannels + ch) 0 : ℤ) : ℚ) / 32768)))

/-! ## Conversation log and the `onmessage` dispatcher -/

/-- Message roles of `types.ts`. -/
inductive Role where
  | user
  | model
  | error
deriving DecidableEq, Repr

/-- One conversation log entry. -/
structure ChatMessage where
  role : Role
  content : String
  image : Option String
deriving DecidableEq, Repr

/-- JavaScript `array.lastIndexOf(r)` over the roles of the log, minus one
when absent. -/
def lastIndexOfRole : List ChatMessage → Role → ℤ
  | [], _ => -1
  | m :: ms, r =>
    let rest := lastIndexOfRole ms r
    if 0 ≤ rest then rest + 1
    else if m.role = r then 0 else -1

/-- Substring test: JavaScript `haystack.startsWith`-shaped prefix check on
character lists. -/
def charsStartWith : List Char → List Char → Bool
  | _, [] => true
  | [], _ :: _ => false
  | a :: as, b :: bs => a == b && charsStartWith as bs

/-- JavaScript `haystack.includes(needle)`. -/
def charsContain : List Char → List Char → Bool
  | [], needle => needle.isEmpty
  | a :: as, needle => charsStartWith (a :: as) needle || charsContain as needle

/-- JavaScript `string.includes(other)`. -/
def strIncludes (haystack needle : String) : Bool :=
  charsContain haystack.toList needle.toList

/-- JavaScript `s.slice(0, -k)`: drop the last `k` code units; `-0` is `0`,
so `k = 0` yields the empty string. -/
def jsSliceDropRight (s : String) (k : Nat) : String :=
  if k = 0 then "" else String.mk (s.toList.take (s.length - k))

/-- State owned by the `startListening` session: the React message log, the
two transcription accumulator refs, the output clock cursor and the live
source set, plus two history variables (`stoppedSources` records every
source on which `stop()` was called, `scheduledStarts` records each
scheduled source with its start time, in order). -/
structure SessionState where
  messages : List ChatMessage
  inputAcc : String
  outputAcc : String
  nextStartTime : ℚ
  outputSources : List Nat
  stoppedSources : List Nat
  scheduledStarts : List (Nat × ℚ)
deriving DecidableEq, Repr

/-- The fresh state of a newly wired session. -/
def initialSession : SessionState :=
  { messages := []
    inputAcc := ""
    outputAcc := ""
    nextStartTime := 0
    outputSources := []
    stoppedSources := []
    scheduledStarts := [] }

/-- Input transcription branch (App.tsx lines 412 to 426): append the
fragment to the input accumulator; overwrite the last `user` entry when it
is more recent than the last `model` entry, otherwise append a new `user`
entry. -/
def handleInputTranscription (text : String) (st : SessionState) : SessionState :=
  let acc := st.inputAcc ++ text
  let lastMsgIndex := lastIndexOfRole st.messages Role.user
  let lastModelMsgIndex := lastIndexOfRole st.messages Role.model
  let msgs :=
    if lastModelMsgIndex < lastMsgIndex then
      st.messages.set lastMsgIndex.toNat ⟨Role.user, acc, none⟩
    else
      st.messages ++ [⟨Role.user, acc, none⟩]
  { st with inputAcc := acc, messages := msgs }

/-- Output transcription branch (App.tsx lines 428 to 440): append the
fragment to the output accumulator; overwrite the last `model` entry when
its content contains the previous accumulator
(`acc.slice(0, -text.length)`), otherwise append a new `model` entry. -/
def handleOutputTranscription (text : String) (st : SessionState) : SessionState :=
  let acc := st.outputAcc ++ text
  let lastMsgIndex := lastIndexOfRole st.messages Role.model
  let prevAcc := jsSliceDropRight acc text.length
  let msgs :=
    if lastMsgIndex ≠ -1 ∧
        strIncludes ((st.messages.getD lastMsgIndex.toNat ⟨Role.error, "", none⟩).content) prevAcc then
      st.messages.set lastMsgIndex.toNat ⟨Role.model, acc, none⟩
    else
      st.messages ++ [⟨Role.model, acc, none⟩]
  { st with outputAcc := acc, messages := msgs }

/-- Audio branch (App.tsx lines 442 to 456) for one decoded buffer of
duration `dur` with the output clock reading `now`: clamp the cursor up to
`now`, schedule the source at the clamped cursor, advance the cursor by the
buffer duration, add the source to the live set. -/
def handleAudio (now dur : ℚ) (sid : Nat) (st : SessionState) : SessionState :=
  let startAt := max st.nextStartTime now
  { st with
    nextStartTime := startAt + dur
    outputSources := st.outputSources ++ [sid]
    scheduledStarts := st.scheduledStarts ++ [(sid, startAt)] }

/-- The `ended` listener of a scheduled source (App.tsx lines 450 to 452):
the source removes exactly its own entry from the live set. -/
def handleEnded (sid : Nat) (st : SessionState) : SessionState :=
  { st with outputSources := st.outputSources.erase sid }

/-- One incoming live server message; the audio payload is abstracted to
the scheduled source id and the decoded buffer duration. -/
structure LiveMsg where
  inputTranscription : Option String
  outputTranscription : Option String
  audio : Option (Nat × ℚ)
  turnComplete : Bool
  interrupted : Bool

/-- The `onmessage` callback (App.tsx lines 411 to 471) as one atomic step
at output clock time `now`, handling the branches in source order:
input transcription, output transcription, audio, turn completion,
interruption. -/
def onmessage (now : ℚ) (msg : LiveMsg) (st : SessionState) : SessionState :=
  let st1 :=
    match msg.inputTranscription with
    | some text => handleInputTranscription text st
    | none => st
  let st2 :=
    match msg.outputTranscription with
    | some text => handleOutputTranscription text st1
    | none => st1
  let st3 :=
    match msg.audio with
    | some (sid, dur) => handleAudio now dur sid st2
    | none => st2
  let st4 :=
    if msg.turnComplete then { st3 with inputAcc := "", outputAcc := "" } else st3
  if msg.interrupted then
    { st4 with
      stoppedSources := st4.stoppedSources ++ st4.outputSources
      outputSources := []
      nextStartTime := 0 }
  else st4

/-! ## Teardown (`stopListening`) and the session close and error callbacks -/

/-- Lifecycle of a web audio context. -/
inductive CtxState where
  | running
  | closed
deriving DecidableEq, Repr

/-- The resource refs owned by the live session: `none` models a null ref.
`stoppedTracks` is a history variable recording every media track on which
`stop()` was called. -/
structure Resources where
  liveSession : Option Unit
  mediaTracks : Option (List Nat)
  scriptProcessor : Option Unit
  mediaStreamSource : Option Unit
  inputCtx : Option CtxState
  outputCtx : Option CtxState
  outputSources : List Nat
  stoppedSources : List Nat
  stoppedTracks : List Nat
  isListening : Bool
  isLoading : Bool
deriving DecidableEq, Repr

/-- `AudioContext.close()`: closing an already closed context is the
observable double release error (the promise rejects with an
`InvalidStateError`). -/
def closeCtx : CtxState → Except String CtxState
  | .closed => .error "InvalidStateError"
  | .running => .ok .closed

/-- Source `stopListening` (App.tsx lines 344 to 371), translated guard by
guard: close and null the session handle, stop the device tracks and null
the stream ref, disconnect and null the tap and the stream source, close
each audio context unless its state is already `closed` (the refs stay
set), stop every live output source, clear the live set, and drop the
listening and loading flags. -/
def stopListening (r : Resources) : Except String Resources :=
  let r1 :=
    match r.liveSession with
    | some _ => { r with liveSession := none }
    | none => r
  let r2 :=
    match r1.mediaTracks with
    | some ts => { r1 with mediaTracks := none, stoppedTracks := r1.stoppedTracks ++ ts }
    | none => r1
  let r3 :=
    match r2.scriptProcessor with
    | some _ => { r2 with scriptProcessor := none }
    | none => r2
  let r4 :=
    match r3.mediaStreamSource with
    | some _ => { r3 with mediaStreamSource := none }
    | none => r3
  let step5 : Except String Resources :=
    match r4.inputCtx with
    | some c =>
      if c = .closed then .ok r4
      else (closeCtx c).map (fun c2 => { r4 with inputCtx := some c2 })
    | none => .ok r4
  match step5 with
  | .error e => .error e
  | .ok r5 =>
    let step6 : Except String Resources :=
      match r5.outputCtx with
      | some c =>
        if c = .closed then .ok r5
        else (closeCtx c).map (fun c2 => { r5 with outputCtx := some c2 })
      | none => .ok r5
    match step6 with
    | .error e => .error e
    | .ok r6 =>
      .ok { r6 with
        stoppedSources := r6.stoppedSources ++ r6.outputSources
        outputSources := []
        isListening := false
        isLoading := false }

/-- The state `stopListening` drives every resource record into. -/
def releasedState (r : Resources) : Resources :=
  { liveSession := none
    mediaTracks := none
    scriptProcessor := none
    mediaStreamSource := none
    inputCtx := r.inputCtx.map (fun _ => .closed)
    outputCtx := r.outputCtx.map (fun _ => .closed)
    outputSources := []
    stoppedSources := r.stoppedSources ++ r.outputSources
    stoppedTracks := r.stoppedTracks ++ r.mediaTracks.getD []
    isListening := false
    isLoading := false }

/-- App state seen by the remote callbacks: the message log plus the
resource refs. -/
structure LiveApp where
  messages : List ChatMessage
  res : Resources
deriving DecidableEq, Repr

/-- The `onerror` callback (App.tsx lines 472 to 476): append one error
entry, then tear down. -/
def onerrorCallback (emsg : String) (app : LiveApp) : Except String LiveApp :=
  let msgs := app.messages ++ [⟨Role.error, "LIVE_SESSION_ERROR: " ++ emsg, none⟩]
  match stopListening app.res with
  | .error e => .error e
  | .ok r => .ok ⟨msgs, r⟩

/-- The `onclose` callback (App.tsx lines 477 to 482).  `captured` is the
value of `isListening` captured by the closure when `startListening` ran;
`toggleListening` only invokes `startListening` from a render in which
`isListening` is `false`, so the callback always holds `captured = false`. -/
def oncloseCallback (captured : Bool) (app : LiveApp) : Except String LiveApp :=
  if captured then
    let msgs := app.messages ++ [⟨Role.model, "VOICE CHANNEL CLOSED.", none⟩]
    match stopListening app.res with
    | .error e => .error e
    | .ok r => .ok ⟨msgs, r⟩
  else .ok app

/-! ## Service worker inactivity check -/

/-- Web notification permission states. -/
inductive NotifPermission where
  | permissionDefault
  | granted
  | denied
deriving DecidableEq, Repr

/-- Inactivity threshold of the service worker, in milliseconds. -/
def INACTIVITY_THRESHOLD : ℤ := 24 * 60 * 60 * 1000

/-- Source `checkInactivityAndNotify` (service worker lines 103 to 124),
run on a periodic sync tick tagged check-inactivity: returns whether the
re-engagement notification is shown.  `lastInteraction` is the stored value
(`none` when the key is absent); the source tests it with JavaScript
truthiness (`if (!lastInteraction) return`), so a stored `0` is treated
like an absent key. -/
def checkInactivityAndNotify (perm : NotifPermission)
    (lastInteraction : Option ℤ) (now : ℤ) : Bool :=
  if perm ≠ NotifPermission.granted then false
  else
    match lastInteraction with
    | none => false
    | some t =>
      if t = 0 then false
      else decide (now - t > INACTIVITY_THRESHOLD)

/-! ## Concrete scenario states -/

/-- Modelled from the spec: the rounding encoder the specification words
claim (`round(s * 32768)`), for comparison with the source `createBlob`. -/
def createBlobRounded (samples : List ℚ) : GenAIBlobModel :=
  { data := encode ((samples.map (fun s => round (s * 32768))).flatMap int16ToBytes)
    mimeType := "audio/pcm;rate=16000" }

/-- The model entry `startListening` appends to the log before the session
opens (App.tsx line 381), so every live session starts with a model entry
in the log. -/
def voiceOpenEntry : ChatMessage :=
  ⟨Role.model, "VOICE CHANNEL OPEN. LISTENING...", none⟩

/-- The transcription scenario of the specification: fragments Hel and lo
for the user, a turn completion, then fragment Hi for the model, starting
from log `st`.  Returns the state after the two user fragments and the
final state. -/
def reconcileScenario (st : SessionState) : SessionState × SessionState :=
  let afterUser :=
    onmessage 0 ⟨some "lo", none, none, false, false⟩
      (onmessage 0 ⟨some "Hel", none, none, false, false⟩ st)
  (afterUser,
    onmessage 0 ⟨none, some "Hi", none, false, false⟩
      (onmessage 0 ⟨none, none, none, true, false⟩ afterUser))

/-! ## Helper lemmas -/

/-- From every resource state, `stopListening` succeeds and produces the
released record. -/
theorem stopListening_eq (r : Resources) :
    stopListening r = Except.ok (releasedState r) := by
  obtain ⟨ls, mt, sp, ms, ic, oc, os, ss, stk, il, ild⟩ := r
  cases ls <;> cases mt <;> cases sp <;> cases ms <;>
    rcases ic with _ | (_ | _) <;> rcases oc with _ | (_ | _) <;>
    simp [stopListening, releasedState, closeCtx, Except.map]

/-- Releasing a released record changes nothing. -/
theorem releasedState_idem (r : Resources) :
    releasedState (releasedState r) = releasedState r := by
  obtain ⟨ls, mt, sp, ms, ic, oc, os, ss, stk, il, ild⟩ := r
  cases ic <;> cases oc <;> simp [releasedState]

/-- Wrapping is the identity on the 16 bit signed range. -/
theorem toInt16JS_eq_truncRat (q : ℚ)
    (h1 : -32768 ≤ truncRat q) (h2 : truncRat q ≤ 32767) :
    toInt16JS q = truncRat q := by
  unfold toInt16JS
  dsimp only
  omega

/-- Truncation of a value in the signed scaled range stays in range. -/
theorem truncRat_bounds (u : ℚ) (h1 : -32768 ≤ u) (h2 : u < 32768) :
    -32768 ≤ truncRat u ∧ truncRat u ≤ 32767 := by
  unfold truncRat
  split
  · have hl : (0 : ℤ) ≤ ⌊u⌋ := Int.floor_nonneg.mpr (by assumption)
    have hu : (⌊u⌋ : ℚ) ≤ u := Int.floor_le u
    have : (⌊u⌋ : ℚ) < 32768 := lt_of_le_of_lt hu h2
    have : ⌊u⌋ < (32768 : ℤ) := by exact_mod_cast this
    omega
  · have hu : u ≤ (⌈u⌉ : ℚ) := Int.le_ceil u
    have hu0 : u ≤ 0 := le_of_not_le (by assumption)
    have hle : (⌈u⌉ : ℤ) ≤ 0 := Int.ceil_le.mpr (by exact_mod_cast hu0)
    have : (-32768 : ℚ) ≤ (⌈u⌉ : ℚ) := le_trans h1 hu
    have : (-32768 : ℤ) ≤ ⌈u⌉ := by exact_mod_cast this
    omega

/-- Truncation toward zero moves a value by less than one. -/
theorem truncRat_err (u : ℚ) : |(truncRat u : ℚ) - u| ≤ 1 := by
  unfold truncRat
  split
  · rw [abs_le]
    constructor
    · have := Int.lt_floor_add_one u
      linarith
    · have := Int.floor_le u
      linarith
  · rw [abs_le]
    constructor
    · have := Int.le_ceil u
      linarith
    · have := Int.ceil_lt_add_one u
      linarith

/-- Two bytes per packed 16 bit integer. -/
theorem flatMap_int16_length (vs : List ℤ) :
    (vs.flatMap int16ToBytes).length = 2 * vs.length := by
  induction vs with
  | nil => rfl
  | cons v rest ih =>
    simp only [List.flatMap_cons, List.length_append, ih]
    show (int16ToBytes v).length + _ = _
    simp only [int16ToBytes, List.length_cons, List.length_nil]
    omega

/-- Reading a list through `getD` over its index range is the list. -/
theorem map_range_getD (xs : List ℤ) (f : ℤ → ℚ) :
    (List.range xs.length).map (fun i => f (xs.getD i 0)) = xs.map f := by
  apply List.ext_getElem
  · simp
  · intro i h1 h2
    simp only [List.getElem_map, List.getElem_range]
    have hi : i < xs.length := by simpa using h2
    rw [List.getD_eq_getElem xs 0 hi]

theorem b64Val_b64Char : ∀ n, n < 64 → b64Val (b64Char n) = some n := by decide

theorem b64Char_ne_pad : ∀ n, n < 64 → ¬ (b64Char n = '=') := by decide

/-- `atob` inverts `btoa` on byte lists. -/
theorem atob_btoa : ∀ bs : List Nat, (∀ b ∈ bs, b < 256) →
    atobChunks (btoaChunks bs) = some bs := by
  intro bs
  induction bs using btoaChunks.induct with
  | case1 => intro _; rfl
  | case2 b1 =>
    intro h
    have hb1 : b1 < 256 := h b1 (by simp)
    simp only [btoaChunks, atobChunks]
    rw [b64Val_b64Char _ (by omega), b64Val_b64Char _ (by omega)]
    simp only [Option.some_bind]
    simp only [and_self, if_true, Option.some.injEq, List.cons.injEq, eq_self_iff_true, and_true]
    omega
  | case3 b1 b2 =>
    intro h
    have hb1 : b1 < 256 := h b1 (by simp)
    have hb2 : b2 < 256 := h b2 (by simp)
    simp only [btoaChunks, atobChunks]
    rw [b64Val_b64Char _ (by omega), b64Val_b64Char _ (by omega)]
    simp only [Option.some_bind]
    rw [if_neg (b64Char_ne_pad _ (by omega))]
    rw [b64Val_b64Char _ (by omega)]
    simp only [Option.some_bind]
    simp only [if_true, Option.some.injEq, List.cons.injEq, eq_self_iff_true, and_true]
    omega
  | case4 b1 b2 b3 rest ih =>
    intro h
    have hb1 : b1 < 256 := h b1 (by simp)
    have hb2 : b2 < 256 := h b2 (by simp)
    have hb3 : b3 < 256 := h b3 (by simp)
    have hrest : ∀ b ∈ rest, b < 256 := fun b hb => h b (by simp [hb])
    simp only [btoaChunks, atobChunks]
    rw [b64Val_b64Char _ (by omega), b64Val_b64Char _ (by omega)]
    simp only [Option.some_bind]
    rw [if_neg (b64Char_ne_pad _ (by omega))]
    rw [b64Val_b64Char _ (by omega)]
    simp only [Option.some_bind]
    rw [if_neg (b64Char_ne_pad _ (by omega))]
    rw [b64Val_b64Char _ (by omega)]
    simp only [Option.some_bind]
    rw [ih hrest]
    simp only [Option.map_some', Option.some.injEq, List.cons.injEq, eq_self_iff_true, and_true]
    omega

/-- `decode` inverts `encode` on byte lists, through the string round trip. -/
theorem decode_encode (bs : List Nat) (h : ∀ b ∈ bs, b < 256) :
    decode (encode bs) = some bs := by
  unfold decode encode
  have : (String.mk (btoaChunks bs)).toList = btoaChunks bs := rfl
  rw [this, atob_btoa bs h]

theorem int16ToBytes_lt (v : ℤ) : ∀ b ∈ int16ToBytes v, b < 256 := by
  intro b hb
  have h0 : 0 ≤ v % 65536 := Int.emod_nonneg v (by norm_num)
  have h1 : v % 65536 < 65536 := Int.emod_lt_of_pos v (by norm_num)
  simp only [int16ToBytes, List.mem_cons, List.mem_singleton] at hb
  rcases hb with h | h | h
  · omega
  · omega
  · cases h

theorem toInt16JS_range (q : ℚ) : -32768 ≤ toInt16JS q ∧ toInt16JS q ≤ 32767 := by
  unfold toInt16JS
  dsimp only
  have h0 : 0 ≤ truncRat q % 65536 := Int.emod_nonneg _ (by norm_num)
  have h1 : truncRat q % 65536 < 65536 := Int.emod_lt_of_pos _ (by norm_num)
  omega

theorem bytesToInt16_int16ToBytes (v : ℤ) (h1 : -32768 ≤ v) (h2 : v ≤ 32767) :
    bytesToInt16 ((v % 65536).toNat % 256) ((v % 65536).toNat / 256) = v := by
  unfold bytesToInt16
  dsimp only
  omega

/-- Reading back the little endian packing of in range 16 bit integers. -/
theorem bytesToInt16List_flat :
    ∀ vs : List ℤ, (∀ v ∈ vs, -32768 ≤ v ∧ v ≤ 32767) →
    bytesToInt16List (vs.flatMap int16ToBytes) = vs := by
  intro vs
  induction vs with
  | nil => intro _; rfl
  | cons v rest ih =>
    intro h
    have hv := h v (by simp)
    have hrest : ∀ w ∈ rest, -32768 ≤ w ∧ w ≤ 32767 := fun w hw => h w (by simp [hw])
    simp only [List.flatMap_cons]
    show bytesToInt16List ((v % 65536).toNat % 256 :: (v % 65536).toNat / 256
      :: rest.flatMap int16ToBytes) = v :: rest
    rw [bytesToInt16List, bytesToInt16_int16ToBytes v hv.1 hv.2, ih hrest]

theorem bytesToInt16List_length :
    ∀ bs : List Nat, (bytesToInt16List bs).length = bs.length / 2 := by
  intro bs
  induction bs using bytesToInt16List.induct with
  | case1 => simp [bytesToInt16List]
  | case2 => simp [bytesToInt16List]
  | case3 lo hi rest ih =>
    simp only [bytesToInt16List, List.length_cons, ih]
    omega

/-- Evaluation of `decodeAudioData` mono on a packed buffer of in range
16 bit integers. -/
theorem decodeAudioData_flat (vs : List ℤ) (hne : vs ≠ [])
    (hr : ∀ v ∈ vs, -32768 ≤ v ∧ v ≤ 32767) :
    decodeAudioData (vs.flatMap int16ToBytes) 1
      = some [vs.map (fun v : ℤ => (v : ℚ) / 32768)] := by
  unfold decodeAudioData
  rw [if_neg (by rw [flatMap_int16_length]; omega)]
  dsimp only
  rw [bytesToInt16List_flat vs hr]
  have hlen : vs.length ≠ 0 := fun h => hne (List.length_eq_zero.mp h)
  have hcond : ¬ (1 = 0 ∨ vs.length / 1 = 0) := by
    rw [Nat.div_one]
    omega
  rw [if_neg hcond]
  have hrange1 : List.range 1 = [0] := rfl
  rw [Nat.div_one, hrange1]
  simp only [List.map_cons, List.map_nil]
  congr 1
  congr 1
  have : (fun i => ((vs.getD (i * 1 + 0) 0 : ℤ) : ℚ) / 32768)
      = fun i => ((vs.getD i 0 : ℤ) : ℚ) / 32768 := by
    funext i
    norm_num
  rw [this, map_range_getD vs (fun v => (v : ℚ) / 32768)]

/-! ## Claim theorems -/

/-- C7: teardown is idempotent and callable from any state: from every
resource state `stopListening` succeeds without an exception (each release
step checks its ref or context state before acting), it drives the state to
the fully released record, and a second call succeeds and changes nothing
further. -/
theorem c7_stop_idempotent (r : Resources) :
    stopListening r = Except.ok (releasedState r) ∧
    stopListening (releasedState r) = Except.ok (releasedState r) := by
  refine ⟨stopListening_eq r, ?_⟩
  rw [stopListening_eq (releasedState r), releasedState_idem r]

/-- C8 (code bug): the `onclose` callback guards on the `isListening` value
captured by its closure when `startListening` ran, and `startListening`
only runs from a render in which `isListening` is `false`; hence on a
remote close while the session is open the callback appends no notice and
releases no resource, leaving the app state completely unchanged —
against the specified single notice plus unconditional teardown (the
`onerror` path, by contrast, is unconditional). -/
theorem c8_onclose_stale_closure :
    ∀ app : LiveApp, oncloseCallback false app = Except.ok app :=
  fun _ => rfl

/-- C10 is refuted at a stored timestamp 0: notification permission is
granted, the `lastInteraction` key exists in the store with value 0, more
than 24 hours have passed, yet no notification is shown, because the source
tests the stored value with JavaScript truthiness rather than existence. -/
theorem c10_inactivity_counterexample :
    checkInactivityAndNotify NotifPermission.granted (some 0) 90000000 = false ∧
    (90000000 : ℤ) - 0 > INACTIVITY_THRESHOLD := by
  constructor
  · rfl
  · decide

/-- C10 amended: on a check-inactivity tick the notification is shown if
and only if permission is granted, a nonzero `lastInteraction` timestamp
exists in the store, and more than 24 hours have passed since it;
otherwise the function returns without showing anything and without an
error. -/
theorem c10_inactivity_amended (perm : NotifPermission) (last : Option ℤ) (now : ℤ) :
    checkInactivityAndNotify perm last now = true ↔
      perm = NotifPermission.granted ∧
      ∃ t, last = some t ∧ t ≠ 0 ∧ now - t > INACTIVITY_THRESHOLD := by
  unfold checkInactivityAndNotify
  rcases last with _ | t
  · simp
  · by_cases hp : perm = NotifPermission.granted
    · subst hp
      by_cases ht : t = 0
      · subst ht
        simp
      · simp [ht]
    · simp [hp]

/-- C2: an interrupted signal stops every buffer in the live set, clears
the live set, resets `nextStartTime` to 0 (so the next submitted buffer is
scheduled exactly at the clock's current time), and touches neither the
log nor the transcription accumulators. -/
theorem c2_interrupt_resets (st : SessionState) (now dur : ℚ) (sid : Nat)
    (hnow : 0 ≤ now) :
    (onmessage now ⟨none, none, none, false, true⟩ st).outputSources = [] ∧
    (onmessage now ⟨none, none, none, false, true⟩ st).nextStartTime = 0 ∧
    (onmessage now ⟨none, none, none, false, true⟩ st).stoppedSources
      = st.stoppedSources ++ st.outputSources ∧
    (onmessage now ⟨none, none, none, false, true⟩ st).messages = st.messages ∧
    (onmessage now ⟨none, none, none, false, true⟩ st).inputAcc = st.inputAcc ∧
    (onmessage now ⟨none, none, none, false, true⟩ st).outputAcc = st.outputAcc ∧
    (handleAudio now dur sid (onmessage now ⟨none, none, none, false, true⟩ st)).scheduledStarts
      = (onmessage now ⟨none, none, none, false, true⟩ st).scheduledStarts
          ++ [(sid, now)] := by
  have hmax : max (0 : ℚ) now = now := max_eq_right hnow
  refine ⟨rfl, rfl, rfl, rfl, rfl, rfl, ?_⟩
  simp [onmessage, handleAudio, hmax]

theorem c2_interrupt_resets_witness :
    ((0 : ℚ) ≤ 2) ∧
    ((onmessage 2 ⟨none, none, none, false, true⟩
        ⟨[], "a", "b", 7, [3, 4], [9], []⟩).outputSources = [] ∧
      (onmessage 2 ⟨none, none, none, false, true⟩
        ⟨[], "a", "b", 7, [3, 4], [9], []⟩).nextStartTime = 0 ∧
      (onmessage 2 ⟨none, none, none, false, true⟩
        ⟨[], "a", "b", 7, [3, 4], [9], []⟩).stoppedSources
        = (⟨[], "a", "b", 7, [3, 4], [9], []⟩ : SessionState).stoppedSources
            ++ (⟨[], "a", "b", 7, [3, 4], [9], []⟩ : SessionState).outputSources ∧
      (onmessage 2 ⟨none, none, none, false, true⟩
        ⟨[], "a", "b", 7, [3, 4], [9], []⟩).messages
        = (⟨[], "a", "b", 7, [3, 4], [9], []⟩ : SessionState).messages ∧
      (onmessage 2 ⟨none, none, none, false, true⟩
        ⟨[], "a", "b", 7, [3, 4], [9], []⟩).inputAcc
        = (⟨[], "a", "b", 7, [3, 4], [9], []⟩ : SessionState).inputAcc ∧
      (onmessage 2 ⟨none, none, none, false, true⟩
        ⟨[], "a", "b", 7, [3, 4], [9], []⟩).outputAcc
        = (⟨[], "a", "b", 7, [3, 4], [9], []⟩ : SessionState).outputAcc ∧
      (handleAudio 2 1 5 (onmessage 2 ⟨none, none, none, false, true⟩
        ⟨[], "a", "b", 7, [3, 4], [9], []⟩)).scheduledStarts
        = (onmessage 2 ⟨none, none, none, false, true⟩
            ⟨[], "a", "b", 7, [3, 4], [9], []⟩).scheduledStarts ++ [(5, 2)]) :=
  ⟨by norm_num, c2_interrupt_resets ⟨[], "a", "b", 7, [3, 4], [9], []⟩ 2 1 5 (by norm_num)⟩

/-- C6: the output clock cursor never decreases on any dispatcher step
other than the interrupt reset (buffer durations are nonnegative), the
`ended` callback leaves it unchanged, and whenever a new playback unit is
scheduled its start time is the clamped cursor `max(nextStartTime, now)`,
which is at least the clock's current time. -/
theorem c6_cursor_monotone (st : SessionState) (now : ℚ) (msg : LiveMsg)
    (hint : msg.interrupted = false)
    (hdur : ∀ sid dur, msg.audio = some (sid, dur) → 0 ≤ dur) :
    st.nextStartTime ≤ (onmessage now msg st).nextStartTime ∧
    (handleEnded 0 st).nextStartTime = st.nextStartTime ∧
    (∀ sid dur, msg.audio = some (sid, dur) →
      (onmessage now msg st).scheduledStarts
        = st.scheduledStarts ++ [(sid, max st.nextStartTime now)] ∧
      now ≤ max st.nextStartTime now) := by
  obtain ⟨it, ot, au, tc, intr⟩ := msg
  simp only at hint
  subst hint
  rcases au with _ | ⟨sid, dur⟩
  · cases it <;> cases ot <;> cases tc <;>
      simp [onmessage, handleInputTranscription, handleOutputTranscription,
        handleEnded]
  · have hd : 0 ≤ dur := hdur sid dur rfl
    have hmono : st.nextStartTime ≤ max st.nextStartTime now + dur :=
      le_trans (le_max_left _ _) (by linarith)
    have hnow : now ≤ max st.nextStartTime now := le_max_right _ _
    cases it <;> cases ot <;> cases tc <;>
      simp [onmessage, handleAudio, handleInputTranscription,
        handleOutputTranscription, handleEnded, hmono, hnow]

theorem c6_cursor_monotone_witness :
    ((⟨some "x", none, some (5, 2), true, false⟩ : LiveMsg).interrupted = false) ∧
    (∀ sid dur, (⟨some "x", none, some (5, 2), true, false⟩ : LiveMsg).audio
        = some (sid, dur) → (0 : ℚ) ≤ dur) ∧
    ((⟨[], "", "", 3, [], [], []⟩ : SessionState).nextStartTime
        ≤ (onmessage 4 ⟨some "x", none, some (5, 2), true, false⟩
            ⟨[], "", "", 3, [], [], []⟩).nextStartTime ∧
      (handleEnded 0 ⟨[], "", "", 3, [], [], []⟩).nextStartTime
        = (⟨[], "", "", 3, [], [], []⟩ : SessionState).nextStartTime ∧
      (∀ sid dur, (⟨some "x", none, some (5, 2), true, false⟩ : LiveMsg).audio
          = some (sid, dur) →
        (onmessage 4 ⟨some "x", none, some (5, 2), true, false⟩
            ⟨[], "", "", 3, [], [], []⟩).scheduledStarts
          = (⟨[], "", "", 3, [], [], []⟩ : SessionState).scheduledStarts
              ++ [(sid, max (⟨[], "", "", 3, [], [], []⟩ : SessionState).nextStartTime 4)] ∧
        (4 : ℚ) ≤ max (⟨[], "", "", 3, [], [], []⟩ : SessionState).nextStartTime 4)) := by
  have hdur : ∀ sid dur, (⟨some "x", none, some (5, 2), true, false⟩ : LiveMsg).audio
      = some (sid, dur) → (0 : ℚ) ≤ dur := by
    intro sid dur h
    simp only [Option.some.injEq, Prod.mk.injEq] at h
    rw [← h.2]
    norm_num
  exact ⟨rfl, hdur,
    c6_cursor_monotone ⟨[], "", "", 3, [], [], []⟩ 4
      ⟨some "x", none, some (5, 2), true, false⟩ rfl hdur⟩

/-- C1: on each decoded buffer the scheduler starts it at
`startAt = max(nextStartTime, now)`, sets the cursor to
`startAt + duration`, and adds the buffer to the live set (removed again
by its `ended` callback); hence three buffers whose arrivals keep pace
start back to back (`start2 = start1 + d1`, `start3 = start2 + d2`), and a
buffer arriving after the previous end starts exactly at the clock time of
its arrival. -/
theorem c1_gapless_scheduling (st : SessionState)
    (t1 t2 t2x t3 d1 d2 d3 : ℚ) (a b c : Nat)
    (h2 : t2 ≤ max st.nextStartTime t1 + d1)
    (h3 : t3 ≤ max st.nextStartTime t1 + d1 + d2)
    (hx : max st.nextStartTime t1 + d1 ≤ t2x)
    (ha : a ∉ st.outputSources) :
    (handleAudio t3 d3 c (handleAudio t2 d2 b (handleAudio t1 d1 a st))).scheduledStarts
        = st.scheduledStarts ++ [(a, max st.nextStartTime t1),
            (b, max st.nextStartTime t1 + d1),
            (c, max st.nextStartTime t1 + d1 + d2)] ∧
    (handleAudio t3 d3 c (handleAudio t2 d2 b (handleAudio t1 d1 a st))).outputSources
        = st.outputSources ++ [a, b, c] ∧
    (handleAudio t3 d3 c (handleAudio t2 d2 b (handleAudio t1 d1 a st))).nextStartTime
        = max st.nextStartTime t1 + d1 + d2 + d3 ∧
    (handleEnded a (handleAudio t1 d1 a st)).outputSources = st.outputSources ∧
    (handleAudio t2x d2 b (handleAudio t1 d1 a st)).scheduledStarts
        = st.scheduledStarts ++ [(a, max st.nextStartTime t1), (b, t2x)] := by
  have s2 : max (max st.nextStartTime t1 + d1) t2 = max st.nextStartTime t1 + d1 :=
    max_eq_left h2
  have s3 : max (max st.nextStartTime t1 + d1 + d2) t3
      = max st.nextStartTime t1 + d1 + d2 := max_eq_left h3
  have sx : max (max st.nextStartTime t1 + d1) t2x = t2x := max_eq_right hx
  refine ⟨?_, ?_, ?_, ?_, ?_⟩
  · simp [handleAudio, s2, s3]
  · simp [handleAudio]
  · simp [handleAudio, s2, s3]
  · simp only [handleAudio, handleEnded]
    rw [List.erase_append_right _ (by simpa using ha)]
    simp
  · simp [handleAudio, s2, sx]

theorem c1_gapless_scheduling_witness :
    ((1 : ℚ) ≤ max initialSession.nextStartTime 0 + 1) ∧
    ((2 : ℚ) ≤ max initialSession.nextStartTime 0 + 1 + 1) ∧
    (max initialSession.nextStartTime 0 + 1 ≤ (5 : ℚ)) ∧
    (0 ∉ initialSession.outputSources) ∧
    ((handleAudio 2 1 2 (handleAudio 1 1 1 (handleAudio 0 1 0 initialSession))).scheduledStarts
        = initialSession.scheduledStarts ++ [(0, max initialSession.nextStartTime 0),
            (1, max initialSession.nextStartTime 0 + 1),
            (2, max initialSession.nextStartTime 0 + 1 + 1)] ∧
      (handleAudio 2 1 2 (handleAudio 1 1 1 (handleAudio 0 1 0 initialSession))).outputSources
        = initialSession.outputSources ++ [0, 1, 2] ∧
      (handleAudio 2 1 2 (handleAudio 1 1 1 (handleAudio 0 1 0 initialSession))).nextStartTime
        = max initialSession.nextStartTime 0 + 1 + 1 + 1 ∧
      (handleEnded 0 (handleAudio 0 1 0 initialSession)).outputSources
        = initialSession.outputSources ∧
      (handleAudio 5 1 1 (handleAudio 0 1 0 initialSession)).scheduledStarts
        = initialSession.scheduledStarts
            ++ [(0, max initialSession.nextStartTime 0), (1, 5)]) := by
  have h2 : (1 : ℚ) ≤ max initialSession.nextStartTime 0 + 1 := by
    norm_num [initialSession]
  have h3 : (2 : ℚ) ≤ max initialSession.nextStartTime 0 + 1 + 1 := by
    norm_num [initialSession]
  have hx : max initialSession.nextStartTime 0 + 1 ≤ (5 : ℚ) := by
    norm_num [initialSession]
  have ha : 0 ∉ initialSession.outputSources := by simp [initialSession]
  exact ⟨h2, h3, hx, ha,
    c1_gapless_scheduling initialSession 0 1 5 2 1 1 1 0 1 2 h2 h3 hx ha⟩

/-- C3 is refuted from the log state every live session actually starts in
(`startListening` appends the voice channel model entry before any fragment
arrives): the two user fragments grow exactly one user entry Hello, but
after the turn completion the model fragment Hi does not produce a new
entry — the containment test compares against the reset accumulator, the
empty string, so it always succeeds and the pre-existing model entry is
overwritten in place. -/
theorem c3_reconciliation_counterexample :
    (reconcileScenario { initialSession with messages := [voiceOpenEntry] }).1.messages
        = [voiceOpenEntry, ⟨Role.user, "Hello", none⟩] ∧
    (reconcileScenario { initialSession with messages := [voiceOpenEntry] }).2.messages
        = [⟨Role.model, "Hi", none⟩, ⟨Role.user, "Hello", none⟩] ∧
    (reconcileScenario { initialSession with messages := [voiceOpenEntry] }).2.messages.length
        ≠ 3 := by
  refine ⟨?_, ?_, ?_⟩ <;> decide

/-- C3 amended: the user part of the scenario holds as claimed (fragments
Hel then lo grow exactly one user entry Hello), and the model fragment Hi
after turn completion appends a new model entry exactly when the log holds
no model entry at all (as from the empty log); when a model entry already
exists the fragment instead overwrites the most recent model entry in
place, leaving the user entry unchanged in both cases. -/
theorem c3_reconciliation_amended :
    (reconcileScenario initialSession).1.messages = [⟨Role.user, "Hello", none⟩] ∧
    (reconcileScenario initialSession).2.messages
        = [⟨Role.user, "Hello", none⟩, ⟨Role.model, "Hi", none⟩] ∧
    (reconcileScenario { initialSession with messages := [voiceOpenEntry] }).2.messages
        = [⟨Role.model, "Hi", none⟩, ⟨Role.user, "Hello", none⟩] := by
  refine ⟨?_, ?_, ?_⟩ <;> decide

/-- C4 is refuted on the sample 3/65536: the assignment
`int16[i] = data[i] * 32768` truncates toward zero (ECMAScript ToInt16),
storing 1, while the claimed `round(s * 32768)` of 1.5 is 2, so the encoder
of the source and the rounding encoder of the claim produce different
blobs. -/
theorem c4_encode_counterexample :
    toInt16JS ((3 : ℚ) / 65536 * 32768) = 1 ∧
    round ((3 : ℚ) / 65536 * 32768) = 2 ∧
    (createBlob [(3 : ℚ) / 65536]).data ≠ (createBlobRounded [(3 : ℚ) / 65536]).data := by
  have h1 : truncRat ((3 : ℚ) / 65536 * 32768) = 1 := by norm_num [truncRat]
  have h2 : toInt16JS ((3 : ℚ) / 65536 * 32768) = 1 := by
    unfold toInt16JS
    dsimp only
    rw [h1]
    decide
  have h3 : round ((3 : ℚ) / 65536 * 32768) = 2 := by
    norm_num [round_eq]
  have hb1 : int16ToBytes 1 = [1, 0] := by decide
  have hb2 : int16ToBytes 2 = [2, 0] := by decide
  refine ⟨h2, h3, ?_⟩
  show encode _ ≠ encode _
  simp only [List.map_cons, List.map_nil, h2, h3, List.flatMap_cons,
    List.flatMap_nil, hb1, hb2, List.append_nil]
  decide

/-- C4 amended: `createBlob` maps each sample through ECMAScript ToInt16 of
the truncated product `s * 32768` (wrapping out of range values modulo
2^16), packs the integers little endian, base64 wraps the bytes (the blob
data decodes back to exactly those bytes), and tags the packet
`audio/pcm;rate=16000`. -/
theorem c4_encode_amended (samples : List ℚ) :
    (createBlob samples).mimeType = "audio/pcm;rate=16000" ∧
    decode ((createBlob samples).data)
      = some ((samples.map (fun s => toInt16JS (s * 32768))).flatMap int16ToBytes) := by
  refine ⟨rfl, ?_⟩
  apply decode_encode
  intro bb hb
  rw [List.mem_flatMap] at hb
  obtain ⟨v, hv, hbv⟩ := hb
  exact int16ToBytes_lt v bb hbv

/-- C5 is refuted at the in range array x = [1]: the scaled sample 32768
wraps to -32768 under ToInt16, the blob decodes to the sample -1, and the
round trip error is 2, far beyond one quantization step. -/
theorem c5_roundtrip_counterexample :
    decode ((createBlob [(1 : ℚ)]).data) = some [0, 128] ∧
    decodeAudioData [0, 128] 1 = some [[(-1 : ℚ)]] ∧
    ¬ (|(-1 : ℚ) - 1| ≤ 1 / 32768) := by
  have h1 : truncRat ((1 : ℚ) * 32768) = 32768 := by norm_num [truncRat]
  have h2 : toInt16JS ((1 : ℚ) * 32768) = -32768 := by
    unfold toInt16JS
    dsimp only
    rw [h1]
    decide
  have hb : int16ToBytes (-32768) = [0, 128] := by decide
  refine ⟨?_, ?_, by norm_num⟩
  · show decode (encode _) = _
    simp only [List.map_cons, List.map_nil, h2, List.flatMap_cons,
      List.flatMap_nil, hb, List.append_nil]
    exact decode_encode [0, 128] (by decide)
  · have hd := decodeAudioData_flat [(-32768 : ℤ)] (by decide) (by decide)
    have hflat : ([(-32768 : ℤ)].flatMap int16ToBytes) = [0, 128] := by decide
    rw [hflat] at hd
    have hmap : ([(-32768 : ℤ)].map (fun v : ℤ => (v : ℚ) / 32768)) = [(-1 : ℚ)] := by
      simp only [List.map_cons, List.map_nil]
      norm_num
    rw [hmap] at hd
    exact hd

/-- C5 amended: for every nonempty sample array with values in the half
open range -1 ≤ s < 1, the blob decodes (base64, then the mono
`Int16Array` read) to one channel of the same length whose samples each
differ from the original by at most one quantization step 1/32768; the
sample 1 itself is excluded, since it wraps. -/
theorem c5_roundtrip_amended (samples : List ℚ) (hne : samples ≠ [])
    (hrange : ∀ s ∈ samples, -1 ≤ s ∧ s < 1) :
    ∃ ys, decode ((createBlob samples).data)
        = some ((samples.map (fun s => toInt16JS (s * 32768))).flatMap int16ToBytes) ∧
      decodeAudioData
          ((samples.map (fun s => toInt16JS (s * 32768))).flatMap int16ToBytes) 1
        = some [ys] ∧
      ys.length = samples.length ∧
      ∀ i, i < samples.length → |ys.getD i 0 - samples.getD i 0| ≤ 1 / 32768 := by
  have hdec : decode ((createBlob samples).data)
      = some ((samples.map (fun s => toInt16JS (s * 32768))).flatMap int16ToBytes) := by
    apply decode_encode
    intro bb hb
    rw [List.mem_flatMap] at hb
    obtain ⟨v, hv, hbv⟩ := hb
    exact int16ToBytes_lt v bb hbv
  have hvs : samples.map (fun s => toInt16JS (s * 32768)) ≠ [] := by
    simpa using hne
  have hvr : ∀ v ∈ samples.map (fun s => toInt16JS (s * 32768)),
      -32768 ≤ v ∧ v ≤ 32767 := by
    intro v hv
    rw [List.mem_map] at hv
    obtain ⟨s, _, rfl⟩ := hv
    exact toInt16JS_range (s * 32768)
  have hd := decodeAudioData_flat (samples.map (fun s => toInt16JS (s * 32768))) hvs hvr
  refine ⟨_, hdec, hd, by simp, ?_⟩
  intro i hi
  have hlen : ((samples.map (fun s => toInt16JS (s * 32768))).map
      (fun v : ℤ => (v : ℚ) / 32768)).length = samples.length := by simp
  have hys : ((samples.map (fun s => toInt16JS (s * 32768))).map
        (fun v : ℤ => (v : ℚ) / 32768)).getD i 0
      = ((toInt16JS (samples[i] * 32768) : ℤ) : ℚ) / 32768 := by
    rw [List.getD_eq_getElem _ 0 (by simpa [hlen] using hi)]
    simp
  have hsi : samples.getD i 0 = samples[i] :=
    List.getD_eq_getElem samples 0 hi
  rw [hys, hsi]
  have hs : samples[i] ∈ samples := List.getElem_mem hi
  obtain ⟨hs1, hs2⟩ := hrange samples[i] hs
  have hu1 : (-32768 : ℚ) ≤ samples[i] * 32768 := by linarith
  have hu2 : samples[i] * 32768 < 32768 := by linarith
  obtain ⟨ht1, ht2⟩ := truncRat_bounds (samples[i] * 32768) hu1 hu2
  rw [toInt16JS_eq_truncRat (samples[i] * 32768) ht1 ht2]
  have herr := truncRat_err (samples[i] * 32768)
  have hrw : ((truncRat (samples[i] * 32768) : ℤ) : ℚ) / 32768 - samples[i]
      = (((truncRat (samples[i] * 32768) : ℤ) : ℚ) - samples[i] * 32768) / 32768 := by
    ring
  rw [hrw, abs_div]
  have habs : |(32768 : ℚ)| = 32768 := by norm_num
  rw [habs]
  rw [div_le_div_iff₀ (by norm_num) (by norm_num)]
  linarith

theorem c5_roundtrip_amended_witness :
    (([(1 : ℚ) / 2] : List ℚ) ≠ [] ∧
      (∀ s ∈ ([(1 : ℚ) / 2] : List ℚ), -1 ≤ s ∧ s < 1)) ∧
    (∃ ys, decode ((createBlob [(1 : ℚ) / 2]).data)
        = some ((([(1 : ℚ) / 2]).map (fun s => toInt16JS (s * 32768))).flatMap int16ToBytes) ∧
      decodeAudioData
          ((([(1 : ℚ) / 2]).map (fun s => toInt16JS (s * 32768))).flatMap int16ToBytes) 1
        = some [ys] ∧
      ys.length = ([(1 : ℚ) / 2] : List ℚ).length ∧
      ∀ i, i < ([(1 : ℚ) / 2] : List ℚ).length →
        |ys.getD i 0 - ([(1 : ℚ) / 2] : List ℚ).getD i 0| ≤ 1 / 32768) := by
  have hr : ∀ s ∈ ([(1 : ℚ) / 2] : List ℚ), -1 ≤ s ∧ s < 1 := by
    intro s hs
    rw [List.mem_singleton] at hs
    subst hs
    constructor <;> norm_num
  exact ⟨⟨by simp, hr⟩, c5_roundtrip_amended [(1 : ℚ) / 2] (by simp) hr⟩

/-- C9 is refuted on a one byte (truncated, odd length) payload: the
`Int16Array` constructor throws a `RangeError` instead of truncating, so
decoding raises; a malformed base64 payload likewise makes `decode`
throw. -/
theorem c9_decode_counterexample :
    decodeAudioData [0] 1 = none ∧ decode "!" = none := by
  constructor <;> rfl

/-- C9 amended: decoding cannot raise only on even byte lengths holding at
least one full frame: there it succeeds and truncates trailing partial
frames, yielding `channelCount` channels of `floor(bytes/2/channelCount)`
frames each; an odd byte length or a payload shorter than one frame
throws. -/
theorem c9_decode_amended (data : List Nat) (nc : Nat)
    (heven : data.length % 2 = 0) (hnc : 0 < nc) (hcap : nc ≤ data.length / 2) :
    ∃ chans, decodeAudioData data nc = some chans ∧
      chans.length = nc ∧
      ∀ ch ∈ chans, ch.length = data.length / 2 / nc := by
  unfold decodeAudioData
  rw [if_neg (by omega)]
  dsimp only
  rw [bytesToInt16List_length data]
  have hfc : 0 < data.length / 2 / nc := Nat.div_pos hcap hnc
  rw [if_neg (by omega)]
  refine ⟨_, rfl, by simp, ?_⟩
  intro ch hch
  rw [List.mem_map] at hch
  obtain ⟨i, hi, rfl⟩ := hch
  simp

theorem c9_decode_amended_witness :
    (([0, 0, 1, 0] : List Nat).length % 2 = 0 ∧ 0 < 2 ∧
      2 ≤ ([0, 0, 1, 0] : List Nat).length / 2) ∧
    (∃ chans, decodeAudioData [0, 0, 1, 0] 2 = some chans ∧
      chans.length = 2 ∧
      ∀ ch ∈ chans, ch.length = ([0, 0, 1, 0] : List Nat).length / 2 / 2) :=
  ⟨⟨by decide, by decide, by decide⟩,
    c9_decode_amended [0, 0, 1, 0] 2 (by decide) (by decide) (by decide)⟩

end Isaac
